import Mathlib

/-!
Verification of the two-layer neural-network training engine
(class NeuralNetwork: predict, trainStep, getWeights, setWeights).

Numbers are modelled as real numbers.  JavaScript arrays of numbers are
Lean lists; an out-of-range JavaScript read (undefined) is handled by the
source with explicit definedness guards, which we mirror with Option
matches on List.get?.  Division by zero (JS NaN) cannot arise under the
well-formedness hypotheses used by the theorems.
-/

noncomputable section

/-- The task type enumeration: classification or regression. -/
inductive TaskType where
  | classification
  | regression
deriving DecidableEq

/-- The engine state: the four parameter tensors plus the two scalars.
Matrices are lists of rows; weights1 is indexed [inputIdx][hiddenIdx],
weights2 is indexed [hiddenIdx][outputIdx], as in the source. -/
structure NeuralNetwork where
  weights1 : List (List ℝ)
  weights2 : List (List ℝ)
  biases1 : List ℝ
  biases2 : List ℝ
  learningRate : ℝ
  taskType : TaskType

/-- sigmoid(x) = 1 / (1 + e^(-x)). -/
def sigmoid (x : ℝ) : ℝ := 1 / (1 + Real.exp (-x))

/-- sigmoidDerivative(x) = s * (1 - s) with s = sigmoid(x). -/
def sigmoidDerivative (x : ℝ) : ℝ := sigmoid x * (1 - sigmoid x)

/-- One column of the source's matrixMultiply inner loop:
result_j accumulated over the rows, skipping a cell the row does not
have (the loop runs i over the rows of the matrix and reads vector_b[i],
so it pairs rows with vector entries and stops contributing when either
side runs out, exactly as the undefined guards do). -/
def dotColumn : List (List ℝ) → List ℝ → ℕ → ℝ
  | [], _, _ => 0
  | _ :: _, [], _ => 0
  | row :: rest, x :: xs, j =>
    (match row[j]? with
     | some v => x * v
     | none => 0) + dotColumn rest xs j

/-- matrixMultiply(matrix_a, vector_b): result_j = sum_i vector_b_i * matrix_a_i_j.
Empty matrix gives []; a length mismatch between vector_b and the row count
gives a zero vector of the column count of the first row. -/
def matrixMultiply (a : List (List ℝ)) (b : List ℝ) : List ℝ :=
  match a with
  | [] => []
  | r0 :: _ =>
    if b.length = a.length then
      (List.range r0.length).map (dotColumn a b)
    else
      List.replicate r0.length 0

/-- vectorAdd(a, b) = a.map((val, i) => defined? val + b[i] : 0). -/
def vectorAdd (a b : List ℝ) : List ℝ :=
  a.enum.map fun p =>
    match b[p.1]? with
    | some w => p.2 + w
    | none => 0

/-- predict: forward pass; sigmoid hidden layer, then sigmoid output for
classification or identity output for regression. -/
def predict (net : NeuralNetwork) (inputs : List ℝ) : List ℝ :=
  let hiddenPre := vectorAdd (matrixMultiply net.weights1 inputs) net.biases1
  let hiddenPost := hiddenPre.map sigmoid
  let outputPre := vectorAdd (matrixMultiply net.weights2 hiddenPost) net.biases2
  match net.taskType with
  | TaskType.classification => outputPre.map sigmoid
  | TaskType.regression => outputPre

/-- The hiddenPre local of trainStep. -/
def hiddenPreV (net : NeuralNetwork) (inputs : List ℝ) : List ℝ :=
  vectorAdd (matrixMultiply net.weights1 inputs) net.biases1

/-- The hiddenPost local of trainStep. -/
def hiddenPostV (net : NeuralNetwork) (inputs : List ℝ) : List ℝ :=
  (hiddenPreV net inputs).map sigmoid

/-- The outputPre local of trainStep. -/
def outputPreV (net : NeuralNetwork) (inputs : List ℝ) : List ℝ :=
  vectorAdd (matrixMultiply net.weights2 (hiddenPostV net inputs)) net.biases2

/-- The outputPost local of trainStep: sigmoid for classification,
identity (a copy) for regression. -/
def outputPostV (net : NeuralNetwork) (inputs : List ℝ) : List ℝ :=
  match net.taskType with
  | TaskType.classification => (outputPreV net inputs).map sigmoid
  | TaskType.regression => outputPreV net inputs

/-- The epsilon constant of the loss computation. -/
def epsilon : ℝ := 1e-12

/-- Math.max(epsilon, Math.min(1 - epsilon, y)): the clamped output used
as the logarithm argument in the cross-entropy loss. -/
def clampUnit (y : ℝ) : ℝ := max epsilon (min (1 - epsilon) y)

/-- One summand of the classification loss:
-(t * ln(y) + (1 - t) * ln(1 - y)) where y is the clamped output. -/
def bceTermV (t y : ℝ) : ℝ :=
  -(t * Real.log (clampUnit y) + (1 - t) * Real.log (1 - clampUnit y))

/-- The loss local of trainStep: mean binary cross-entropy of the clamped
outputs for classification, mean one-half squared error for regression. -/
def lossV (net : NeuralNetwork) (inputs targets : List ℝ) : ℝ :=
  match net.taskType with
  | TaskType.classification =>
    ((outputPostV net inputs).enum.map fun p =>
      bceTermV (targets.getD p.1 0) p.2).sum / (outputPostV net inputs).length
  | TaskType.regression =>
    ((outputPostV net inputs).enum.map fun p =>
      0.5 * (targets.getD p.1 0 - p.2) ^ 2).sum / (outputPostV net inputs).length

/-- The outputGradients local of trainStep: outputPost.map((o, i) => o - target[i]).
The same expression is used by both task-type branches of the source. -/
def outputGradientsV (net : NeuralNetwork) (inputs targets : List ℝ) : List ℝ :=
  (outputPostV net inputs).enum.map fun p => p.2 - targets.getD p.1 0

/-- The hiddenErrorValues local of trainStep: for each hidden index, the sum
over output indices of outputGradients[o] * weights2[h][o], skipping
cells the guards find undefined. -/
def hiddenErrorValuesV (net : NeuralNetwork) (inputs targets : List ℝ) : List ℝ :=
  (List.range net.biases1.length).map fun hIdx =>
    ((List.range net.biases2.length).map fun oIdx =>
      match net.weights2[hIdx]?.bind (fun row => row[oIdx]?),
            (outputGradientsV net inputs targets)[oIdx]? with
      | some w, some g => g * w
      | _, _ => 0).sum

/-- The hiddenGradients local of trainStep: error * sigmoidDerivative(hiddenPre[h]),
or 0 when hiddenPre[h] is undefined. -/
def hiddenGradientsV (net : NeuralNetwork) (inputs targets : List ℝ) : List ℝ :=
  (hiddenErrorValuesV net inputs targets).enum.map fun p =>
    match (hiddenPreV net inputs)[p.1]? with
    | some hp => p.2 * sigmoidDerivative hp
    | none => 0

/-- The weights2Gradients local of trainStep: outer product
hiddenPost[h] * outputGradients[o]. -/
def weights2GradientsV (net : NeuralNetwork) (inputs targets : List ℝ) : List (List ℝ) :=
  (hiddenPostV net inputs).map fun hiddenVal =>
    (outputGradientsV net inputs targets).map fun grad => hiddenVal * grad

/-- The weights1Gradients local of trainStep: outer product
inputs[i] * hiddenGradients[h]. -/
def weights1GradientsV (net : NeuralNetwork) (inputs targets : List ℝ) : List (List ℝ) :=
  inputs.map fun inputVal =>
    (hiddenGradientsV net inputs targets).map fun grad => inputVal * grad

/-- The in-place matrix update loop: w[i][j] -= lr * g[i][j] whenever the
gradient cell is defined, leaving the cell unchanged otherwise. -/
def updateMatrix (w g : List (List ℝ)) (lr : ℝ) : List (List ℝ) :=
  w.enum.map fun p =>
    p.2.enum.map fun q =>
      match g[p.1]?.bind (fun row => row[q.1]?) with
      | some gv => q.2 - lr * gv
      | none => q.2

/-- The in-place vector update loop: b[i] -= lr * g[i] whenever the gradient
entry is defined, leaving the entry unchanged otherwise. -/
def updateVector (b g : List ℝ) (lr : ℝ) : List ℝ :=
  b.enum.map fun p =>
    match g[p.1]? with
    | some gv => p.2 - lr * gv
    | none => p.2

/-- The forward section of the training-step record. -/
structure TrainingForward where
  inputs : List ℝ
  hiddenPre : List ℝ
  hiddenPost : List ℝ
  outputPre : List ℝ
  outputPost : List ℝ
  weights1 : List (List ℝ)
  weights2 : List (List ℝ)
  biases1 : List ℝ
  biases2 : List ℝ

/-- The backward section of the training-step record. -/
structure TrainingBackward where
  loss : ℝ
  outputGradients : List ℝ
  hiddenGradients : List ℝ
  weights2Gradients : List (List ℝ)
  weights1Gradients : List (List ℝ)
  biases2Gradients : List ℝ
  biases1Gradients : List ℝ

/-- The after section of the training-step record. -/
structure TrainingAfter where
  weights1 : List (List ℝ)
  weights2 : List (List ℝ)
  biases1 : List ℝ
  biases2 : List ℝ

/-- The record returned by trainStep. -/
structure TrainingStep where
  forward : TrainingForward
  backward : TrainingBackward
  after : TrainingAfter

/-- trainStep: snapshot the parameters, run the forward pass, compute the
loss and all gradients from the pre-update parameters, apply the
gradient-descent update in place, snapshot again.  The mutation of the
engine is modelled by returning the record together with the updated
engine state. -/
def trainStep (net : NeuralNetwork) (inputs targets : List ℝ) :
    TrainingStep × NeuralNetwork :=
  let og := outputGradientsV net inputs targets
  let hg := hiddenGradientsV net inputs targets
  let w2g := weights2GradientsV net inputs targets
  let w1g := weights1GradientsV net inputs targets
  let newW2 := updateMatrix net.weights2 w2g net.learningRate
  let newW1 := updateMatrix net.weights1 w1g net.learningRate
  let newB2 := updateVector net.biases2 og net.learningRate
  let newB1 := updateVector net.biases1 hg net.learningRate
  ({ forward :=
      { inputs := inputs
        hiddenPre := hiddenPreV net inputs
        hiddenPost := hiddenPostV net inputs
        outputPre := outputPreV net inputs
        outputPost := outputPostV net inputs
        weights1 := net.weights1
        weights2 := net.weights2
        biases1 := net.biases1
        biases2 := net.biases2 }
     backward :=
      { loss := lossV net inputs targets
        outputGradients := og
        hiddenGradients := hg
        weights2Gradients := w2g
        weights1Gradients := w1g
        biases2Gradients := og
        biases1Gradients := hg }
     after :=
      { weights1 := newW1
        weights2 := newW2
        biases1 := newB1
        biases2 := newB2 } },
   { net with
      weights1 := newW1
      weights2 := newW2
      biases1 := newB1
      biases2 := newB2 })

/-- Reading a vector entry, with the junk value 0 out of range. -/
def vget (v : List ℝ) (i : ℕ) : ℝ := v.getD i 0

/-- Reading a matrix entry, with the junk value 0 out of range. -/
def mget (m : List (List ℝ)) (i j : ℕ) : ℝ := (m.getD i []).getD j 0

/-- Well-formedness of an engine together with a size signature: positive
sizes and the four tensors of the matching dimensions. -/
structure WellFormed (net : NeuralNetwork)
    (inputSize hiddenSize outputSize : ℕ) : Prop where
  inputPos : 0 < inputSize
  hiddenPos : 0 < hiddenSize
  outputPos : 0 < outputSize
  w1Len : net.weights1.length = inputSize
  w1Rows : ∀ row ∈ net.weights1, row.length = hiddenSize
  w2Len : net.weights2.length = hiddenSize
  w2Rows : ∀ row ∈ net.weights2, row.length = outputSize
  b1Len : net.biases1.length = hiddenSize
  b2Len : net.biases2.length = outputSize



/-! ### A store model for the accessors

getWeights and setWeights are specified through JavaScript array
reference semantics: both build deep copies (a fresh outer array whose
entries are fresh inner arrays).  To state that mutating the returned
object cannot change the engine, arrays are modelled as cells of an
addressed store: number-array cells and array-of-array cells (the latter
hold addresses of the former).  Allocation hands out the next free
address of the respective kind. -/

/-- The store: number-array cells, array-of-array cells and the two
allocation counters.  Addresses at or above a counter are unallocated. -/
structure Store where
  vec : ℕ → List ℝ
  arr : ℕ → List ℕ
  nv : ℕ
  na : ℕ

/-- Allocate a fresh number-array cell holding the given values. -/
def allocVec (s : Store) (v : List ℝ) : ℕ × Store :=
  (s.nv, { s with vec := Function.update s.vec s.nv v, nv := s.nv + 1 })

/-- Allocate fresh number-array cells for a list of value lists. -/
def allocVecs : Store → List (List ℝ) → List ℕ × Store
  | s, [] => ([], s)
  | s, v :: vs =>
    let p := allocVec s v
    let q := allocVecs p.2 vs
    (p.1 :: q.1, q.2)

/-- Allocate a fresh array-of-array cell holding the given addresses. -/
def allocArr (s : Store) (a : List ℕ) : ℕ × Store :=
  (s.na, { s with arr := Function.update s.arr s.na a, na := s.na + 1 })

/-- The values of a number-array cell. -/
def readVec (s : Store) (a : ℕ) : List ℝ := s.vec a

/-- The values of a matrix: the rows referenced by an array-of-array cell. -/
def readMat (s : Store) (a : ℕ) : List (List ℝ) :=
  (s.arr a).map s.vec

/-- m.map(row => [...row]): a fresh outer array of fresh copies of the rows. -/
def copyMat (s : Store) (src : ℕ) : ℕ × Store :=
  let p := allocVecs s (readMat s src)
  allocArr p.2 p.1

/-- [...v]: a fresh copy of a number array. -/
def copyVec (s : Store) (src : ℕ) : ℕ × Store :=
  allocVec s (readVec s src)

/-- The shared allocation pattern of getWeights and setWeights: deep copies
of two matrices and two vectors, in that order. -/
def copy4 (s : Store) (m1 m2 v1 v2 : ℕ) : (ℕ × ℕ × ℕ × ℕ) × Store :=
  let p1 := copyMat s m1
  let p2 := copyMat p1.2 m2
  let q1 := copyVec p2.2 v1
  let q2 := copyVec q1.2 v2
  ((p1.1, p2.1, q1.1, q2.1), q2.2)

/-- The engine's parameter storage: addresses of the four tensors. -/
structure HeapNet where
  w1 : ℕ
  w2 : ℕ
  b1 : ℕ
  b2 : ℕ

/-- The object shape passed to setWeights and returned by getWeights. -/
structure WeightsObj where
  weights1 : ℕ
  weights2 : ℕ
  biases1 : ℕ
  biases2 : ℕ

/-- getWeights: returns deep copies of the four parameter tensors. -/
def getWeights (e : HeapNet) (s : Store) : WeightsObj × Store :=
  let p1 := copyMat s e.w1
  let p2 := copyMat p1.2 e.w2
  let q1 := copyVec p2.2 e.b1
  let q2 := copyVec q1.2 e.b2
  ({ weights1 := p1.1, weights2 := p2.1, biases1 := q1.1, biases2 := q2.1 },
   q2.2)

/-- setWeights: installs deep copies of the four given tensors. -/
def setWeights (e : HeapNet) (s : Store) (w : WeightsObj) : HeapNet × Store :=
  let p1 := copyMat s w.weights1
  let p2 := copyMat p1.2 w.weights2
  let q1 := copyVec p2.2 w.biases1
  let q2 := copyVec q1.2 w.biases2
  ({ w1 := p1.1, w2 := p2.1, b1 := q1.1, b2 := q2.1 }, q2.2)

/-- All addresses reachable from the engine are allocated. -/
def validAddrs (s : Store) (e : HeapNet) : Prop :=
  e.w1 < s.na ∧ e.w2 < s.na ∧ e.b1 < s.nv ∧ e.b2 < s.nv ∧
    (∀ r ∈ s.arr e.w1, r < s.nv) ∧ (∀ r ∈ s.arr e.w2, r < s.nv)

/-- The value-level engine determined by a heap engine, a store and the two
scalars (which the accessors do not touch). -/
def netOf (s : Store) (e : HeapNet) (lr : ℝ) (tt : TaskType) : NeuralNetwork :=
  { weights1 := readMat s e.w1
    weights2 := readMat s e.w2
    biases1 := readVec s e.b1
    biases2 := readVec s e.b2
    learningRate := lr
    taskType := tt }

/-! ### Concrete example data -/

/-- A small concrete classification engine (2 inputs, 1 hidden unit,
1 output) with all parameters 0.1 and learning rate 0.1. -/
def exNet : NeuralNetwork :=
  { weights1 := [[0.1], [0.1]]
    weights2 := [[0.1]]
    biases1 := [0.1]
    biases2 := [0.1]
    learningRate := 0.1
    taskType := TaskType.classification }

/-- A small concrete regression engine (2 inputs, 1 hidden unit, 1 output)
whose first-layer weights are 1 and biases 0, so that the first input entry
visibly influences the output when dimensions match. -/
def exNet9 : NeuralNetwork :=
  { weights1 := [[1], [1]]
    weights2 := [[1]]
    biases1 := [0]
    biases2 := [0]
    learningRate := 0.1
    taskType := TaskType.regression }

/-- A concrete store populated with two number arrays and two
array-of-array cells, for exercising the accessor theorems. -/
def exStore : Store :=
  { vec := fun _ => [1, 2]
    arr := fun _ => [0, 1]
    nv := 2
    na := 2 }

/-- A concrete heap engine over exStore. -/
def exHeapNet : HeapNet :=
  { w1 := 0, w2 := 1, b1 := 0, b2 := 1 }

/-! ### Basic list indexing and summation lemmas -/

/-- Entry of a mapped list. -/
theorem listGetDMap {α β : Type _} (f : α → β) (l : List α) (d : β) (i : ℕ)
    (hi : i < l.length) : (l.map f).getD i d = f l[i] := by
  rw [List.getD_eq_getElem?_getD, List.getElem?_map, List.getElem?_eq_getElem hi]
  rfl

/-- Entry of an index-paired mapped list. -/
theorem listGetDEnumMap {α β : Type _} (f : ℕ × α → β) (l : List α) (d : β) (i : ℕ)
    (hi : i < l.length) : (l.enum.map f).getD i d = f (i, l[i]) := by
  rw [List.getD_eq_getElem?_getD, List.getElem?_map, List.getElem?_enum,
    List.getElem?_eq_getElem hi]
  rfl

/-- Entry of a list built by mapping over a range. -/
theorem listGetDRangeMap {β : Type _} (g : ℕ → β) (n : ℕ) (d : β) (i : ℕ)
    (hi : i < n) : ((List.range n).map g).getD i d = g i := by
  rw [List.getD_eq_getElem?_getD, List.getElem?_map, List.getElem?_range hi]
  rfl

/-- Sum of a list built by mapping over a range, as a finite sum. -/
theorem listRangeMapSum {M : Type _} [AddCommMonoid M] (g : ℕ → M) (n : ℕ) :
    ((List.range n).map g).sum = ∑ i ∈ Finset.range n, g i := by
  induction n with
  | zero => simp
  | succ n ih =>
    rw [List.range_succ, List.map_append, List.sum_append, Finset.sum_range_succ, ih]
    simp

/-- Sum of an index-paired mapped list, as a finite sum over the indices. -/
theorem listEnumFromMapSum {α : Type _} {M : Type _} [AddCommMonoid M]
    (f : ℕ × α → M) (d : α) :
    ∀ (l : List α) (k : ℕ),
      ((List.enumFrom k l).map f).sum =
        ∑ i ∈ Finset.range l.length, f (k + i, l.getD i d)
  | [], k => by simp
  | x :: xs, k => by
    rw [List.enumFrom_cons, List.map_cons, List.sum_cons,
      listEnumFromMapSum f d xs (k + 1), List.length_cons, Finset.sum_range_succ']
    have hidx : ∀ i, k + (i + 1) = k + 1 + i := by omega
    simp only [List.getD_cons_succ, List.getD_cons_zero, Nat.add_zero]
    rw [add_comm]
    congr 1
    exact Finset.sum_congr rfl fun i _ => by rw [hidx i]

/-- Sum of an enumerated mapped list, as a finite sum over the indices. -/
theorem listEnumMapSum {α : Type _} {M : Type _} [AddCommMonoid M]
    (f : ℕ × α → M) (d : α) (l : List α) :
    (l.enum.map f).sum = ∑ i ∈ Finset.range l.length, f (i, l.getD i d) := by
  have h := listEnumFromMapSum f d l 0
  simpa using h

/-- Reading an in-range entry through the total getter. -/
theorem vgetElem {l : List ℝ} {i : ℕ} (hi : i < l.length) : l[i] = vget l i :=
  (List.getD_eq_getElem l 0 hi).symm

/-! ### dotColumn, matrixMultiply and vectorAdd -/

/-- dotColumn on fully defined data is the expected contraction. -/
theorem dotColumn_eq_sum {c : ℕ} :
    ∀ (a : List (List ℝ)) (b : List ℝ) (j : ℕ),
      b.length = a.length → (∀ row ∈ a, row.length = c) → j < c →
      dotColumn a b j = ∑ i ∈ Finset.range a.length, vget b i * mget a i j
  | [], b, j, _, _, _ => by simp [dotColumn]
  | row :: rest, b, j, hb, hrows, hj => by
    match b, hb with
    | x :: xs, hb =>
      have hxs : xs.length = rest.length := by simpa using hb
      have hrow : row.length = c := hrows row (List.mem_cons_self _ _)
      have hjr : j < row.length := hrow ▸ hj
      rw [dotColumn, List.getElem?_eq_getElem hjr,
        dotColumn_eq_sum rest xs j hxs (fun r hr => hrows r (List.mem_cons_of_mem _ hr)) hj,
        List.length_cons, Finset.sum_range_succ']
      simp only [vget, mget, List.getD_cons_succ, List.getD_cons_zero]
      rw [add_comm]
      congr 1
      rw [List.getD_eq_getElem row 0 hjr]

/-- dotColumn against an all-zero vector vanishes. -/
theorem dotColumn_of_zero :
    ∀ (a : List (List ℝ)) (b : List ℝ) (j : ℕ), (∀ x ∈ b, x = 0) →
      dotColumn a b j = 0
  | [], _, _, _ => rfl
  | _ :: _, [], _, _ => rfl
  | row :: rest, x :: xs, j, hb => by
    have hx : x = 0 := hb x (List.mem_cons_self _ _)
    have hrec := dotColumn_of_zero rest xs j fun y hy => hb y (List.mem_cons_of_mem _ hy)
    rw [dotColumn, hrec, hx]
    cases row[j]? <;> simp

/-- The length of a matrix-vector product over a matrix with constant row length. -/
theorem matrixMultiply_length {a : List (List ℝ)} {c : ℕ}
    (ha : a ≠ []) (hrows : ∀ row ∈ a, row.length = c) (b : List ℝ) :
    (matrixMultiply a b).length = c := by
  match a, ha with
  | r0 :: rest, _ =>
    have hr0 : r0.length = c := hrows r0 (List.mem_cons_self _ _)
    rw [matrixMultiply]
    split <;> simp [hr0]

/-- An in-range entry of a dimension-correct matrix-vector product. -/
theorem matrixMultiply_getD {a : List (List ℝ)} {b : List ℝ} {c j : ℕ}
    (ha : a ≠ []) (hrows : ∀ row ∈ a, row.length = c)
    (hb : b.length = a.length) (hj : j < c) :
    vget (matrixMultiply a b) j = dotColumn a b j := by
  match a, ha with
  | r0 :: rest, _ =>
    have hr0 : r0.length = c := hrows r0 (List.mem_cons_self _ _)
    rw [vget, matrixMultiply, if_pos hb, listGetDRangeMap _ _ _ _ (hr0 ▸ hj)]

/-- matrixMultiply returns a zero vector when the vector length mismatches. -/
theorem matrixMultiply_mismatch {a : List (List ℝ)} {b : List ℝ} {r0 : List ℝ}
    {rest : List (List ℝ)} (hra : a = r0 :: rest) (hb : b.length ≠ a.length) :
    matrixMultiply a b = List.replicate r0.length 0 := by
  subst hra
  rw [matrixMultiply, if_neg hb]

/-- The length of vectorAdd is the length of its first argument. -/
theorem vectorAdd_length (a b : List ℝ) : (vectorAdd a b).length = a.length := by
  simp [vectorAdd, List.enum_length]

/-- An in-range entry of vectorAdd. -/
theorem vectorAdd_getD {a b : List ℝ} {i : ℕ} (hi : i < a.length)
    (hib : i < b.length) : vget (vectorAdd a b) i = vget a i + vget b i := by
  rw [vget, vectorAdd, listGetDEnumMap _ _ _ _ hi, List.getElem?_eq_getElem hib]
  simp only []
  rw [vgetElem hi, vgetElem hib]


/-! ### Forward pass under well-formedness -/

section Forward

variable {net : NeuralNetwork} {I H O : ℕ} {inputs targets : List ℝ}

/-- A well-formed first weight matrix is nonempty. -/
theorem WellFormed.w1_ne_nil (hwf : WellFormed net I H O) : net.weights1 ≠ [] :=
  List.length_pos.mp (hwf.w1Len ▸ hwf.inputPos)

/-- A well-formed second weight matrix is nonempty. -/
theorem WellFormed.w2_ne_nil (hwf : WellFormed net I H O) : net.weights2 ≠ [] :=
  List.length_pos.mp (hwf.w2Len ▸ hwf.hiddenPos)

/-- hiddenPre has one entry per hidden unit. -/
theorem hiddenPreV_length (hwf : WellFormed net I H O)
    (hin : inputs.length = I) : (hiddenPreV net inputs).length = H := by
  rw [hiddenPreV, vectorAdd_length, matrixMultiply_length hwf.w1_ne_nil hwf.w1Rows]

/-- hiddenPre entry: the weights1 column contraction plus the bias. -/
theorem hiddenPreV_getD (hwf : WellFormed net I H O)
    (hin : inputs.length = I) {h : ℕ} (hh : h < H) :
    vget (hiddenPreV net inputs) h =
      dotColumn net.weights1 inputs h + vget net.biases1 h := by
  rw [hiddenPreV, vectorAdd_getD, matrixMultiply_getD hwf.w1_ne_nil hwf.w1Rows
    (by rw [hin, hwf.w1Len]) hh]
  · rw [matrixMultiply_length hwf.w1_ne_nil hwf.w1Rows]
    exact hh
  · rw [hwf.b1Len]
    exact hh

/-- hiddenPost has one entry per hidden unit. -/
theorem hiddenPostV_length (hwf : WellFormed net I H O)
    (hin : inputs.length = I) : (hiddenPostV net inputs).length = H := by
  rw [hiddenPostV, List.length_map, hiddenPreV_length hwf hin]

/-- hiddenPost entry: the sigmoid of the hiddenPre entry. -/
theorem hiddenPostV_getD (hwf : WellFormed net I H O)
    (hin : inputs.length = I) {h : ℕ} (hh : h < H) :
    vget (hiddenPostV net inputs) h = sigmoid (vget (hiddenPreV net inputs) h) := by
  have hlen : h < (hiddenPreV net inputs).length := by
    rw [hiddenPreV_length hwf hin]; exact hh
  rw [hiddenPostV, vget, listGetDMap _ _ _ _ hlen, vgetElem hlen]

/-- outputPre has one entry per output unit. -/
theorem outputPreV_length (hwf : WellFormed net I H O)
    (hin : inputs.length = I) : (outputPreV net inputs).length = O := by
  rw [outputPreV, vectorAdd_length, matrixMultiply_length hwf.w2_ne_nil hwf.w2Rows]

/-- outputPre entry: the weights2 column contraction plus the bias. -/
theorem outputPreV_getD (hwf : WellFormed net I H O)
    (hin : inputs.length = I) {o : ℕ} (ho : o < O) :
    vget (outputPreV net inputs) o =
      dotColumn net.weights2 (hiddenPostV net inputs) o + vget net.biases2 o := by
  rw [outputPreV, vectorAdd_getD, matrixMultiply_getD hwf.w2_ne_nil hwf.w2Rows
    (by rw [hiddenPostV_length hwf hin, hwf.w2Len]) ho]
  · rw [matrixMultiply_length hwf.w2_ne_nil hwf.w2Rows]
    exact ho
  · rw [hwf.b2Len]
    exact ho

/-- outputPost has one entry per output unit. -/
theorem outputPostV_length (hwf : WellFormed net I H O)
    (hin : inputs.length = I) : (outputPostV net inputs).length = O := by
  rw [outputPostV]
  cases net.taskType <;>
    simp [List.length_map, outputPreV_length hwf hin]

/-- outputGradients has one entry per output unit. -/
theorem outputGradientsV_length (hwf : WellFormed net I H O)
    (hin : inputs.length = I) :
    (outputGradientsV net inputs targets).length = O := by
  rw [outputGradientsV, List.length_map, List.enum_length,
    outputPostV_length hwf hin]

/-- outputGradients entry: outputPost minus the target. -/
theorem outputGradientsV_getD (hwf : WellFormed net I H O)
    (hin : inputs.length = I) {o : ℕ} (ho : o < O) :
    vget (outputGradientsV net inputs targets) o =
      vget (outputPostV net inputs) o - vget targets o := by
  have hlen : o < (outputPostV net inputs).length := by
    rw [outputPostV_length hwf hin]; exact ho
  rw [outputGradientsV, vget, listGetDEnumMap _ _ _ _ hlen, vgetElem hlen]
  rfl

/-- hiddenErrorValues has one entry per hidden unit. -/
theorem hiddenErrorValuesV_length (hwf : WellFormed net I H O) :
    (hiddenErrorValuesV net inputs targets).length = H := by
  rw [hiddenErrorValuesV, List.length_map, List.length_range, hwf.b1Len]

/-- hiddenErrorValues entry: the contraction of outputGradients with the
weights2 row of the hidden unit. -/
theorem hiddenErrorValuesV_getD (hwf : WellFormed net I H O)
    (hin : inputs.length = I) {h : ℕ} (hh : h < H) :
    vget (hiddenErrorValuesV net inputs targets) h =
      ∑ o ∈ Finset.range O,
        vget (outputGradientsV net inputs targets) o * mget net.weights2 h o := by
  have hw2 : h < net.weights2.length := by rw [hwf.w2Len]; exact hh
  rw [hiddenErrorValuesV, vget, listGetDRangeMap _ _ _ _ (by rw [hwf.b1Len]; exact hh),
    hwf.b2Len, listRangeMapSum]
  refine Finset.sum_congr rfl fun o hmem => ?_
  have ho : o < O := Finset.mem_range.mp hmem
  have hrow : o < (net.weights2[h]).length := by
    rw [hwf.w2Rows _ (List.getElem_mem hw2)]; exact ho
  have hog : o < (outputGradientsV net inputs targets).length := by
    rw [outputGradientsV_length hwf hin]; exact ho
  rw [List.getElem?_eq_getElem hw2, List.getElem?_eq_getElem hog]
  simp only [Option.some_bind, List.getElem?_eq_getElem hrow]
  rw [vgetElem hog]
  congr 1
  rw [mget, List.getD_eq_getElem _ _ hw2, List.getD_eq_getElem _ _ hrow]

/-- hiddenGradients has one entry per hidden unit. -/
theorem hiddenGradientsV_length (hwf : WellFormed net I H O) :
    (hiddenGradientsV net inputs targets).length = H := by
  rw [hiddenGradientsV, List.length_map, List.enum_length,
    hiddenErrorValuesV_length hwf]

/-- hiddenGradients entry: the hidden error scaled by the sigmoid derivative
at hiddenPre. -/
theorem hiddenGradientsV_getD (hwf : WellFormed net I H O)
    (hin : inputs.length = I) {h : ℕ} (hh : h < H) :
    vget (hiddenGradientsV net inputs targets) h =
      vget (hiddenErrorValuesV net inputs targets) h *
        sigmoidDerivative (vget (hiddenPreV net inputs) h) := by
  have hev : h < (hiddenErrorValuesV net inputs targets).length := by
    rw [hiddenErrorValuesV_length hwf]; exact hh
  have hpre : h < (hiddenPreV net inputs).length := by
    rw [hiddenPreV_length hwf hin]; exact hh
  rw [hiddenGradientsV, vget, listGetDEnumMap _ _ _ _ hev,
    List.getElem?_eq_getElem hpre]
  simp only []
  rw [vgetElem hev, vgetElem hpre]

/-- weights2Gradients entry: the outer product hiddenPost times
outputGradients. -/
theorem weights2GradientsV_mget (hwf : WellFormed net I H O)
    (hin : inputs.length = I) {h o : ℕ} (hh : h < H) (ho : o < O) :
    mget (weights2GradientsV net inputs targets) h o =
      vget (hiddenPostV net inputs) h *
        vget (outputGradientsV net inputs targets) o := by
  have hpost : h < (hiddenPostV net inputs).length := by
    rw [hiddenPostV_length hwf hin]; exact hh
  have hog : o < (outputGradientsV net inputs targets).length := by
    rw [outputGradientsV_length hwf hin]; exact ho
  rw [mget, weights2GradientsV, listGetDMap _ _ _ _ hpost,
    listGetDMap _ _ _ _ hog, vgetElem hpost, vgetElem hog]

/-- weights1Gradients entry: the outer product inputs times hiddenGradients. -/
theorem weights1GradientsV_mget (hwf : WellFormed net I H O)
    (hin : inputs.length = I) {i h : ℕ} (hi : i < I) (hh : h < H) :
    mget (weights1GradientsV net inputs targets) i h =
      vget inputs i * vget (hiddenGradientsV net inputs targets) h := by
  have hinp : i < inputs.length := by rw [hin]; exact hi
  have hg : h < (hiddenGradientsV net inputs targets).length := by
    rw [hiddenGradientsV_length hwf]; exact hh
  rw [mget, weights1GradientsV, listGetDMap _ _ _ _ hinp,
    listGetDMap _ _ _ _ hg, vgetElem hinp, vgetElem hg]

end Forward


/-! ### Clamping -/

/-- epsilon is positive. -/
theorem epsilon_pos : 0 < epsilon := by rw [epsilon]; norm_num

/-- epsilon is at most 1 - epsilon. -/
theorem epsilon_le_one_sub_epsilon : epsilon ≤ 1 - epsilon := by
  rw [epsilon]; norm_num

/-- The clamp is bounded below by epsilon. -/
theorem le_clampUnit (y : ℝ) : epsilon ≤ clampUnit y := le_max_left _ _

/-- The clamp is bounded above by 1 - epsilon. -/
theorem clampUnit_le (y : ℝ) : clampUnit y ≤ 1 - epsilon :=
  max_le epsilon_le_one_sub_epsilon (min_le_left _ _)

/-- Clamping commutes with reflection about one half:
1 - clamp(y) = clamp(1 - y). -/
theorem one_sub_clampUnit (y : ℝ) : 1 - clampUnit y = clampUnit (1 - y) := by
  have he := epsilon_le_one_sub_epsilon
  rw [clampUnit, clampUnit]
  rcases le_total y epsilon with h1 | h1
  · rw [min_eq_right (h1.trans he), max_eq_left h1,
      min_eq_left (by linarith : 1 - epsilon ≤ 1 - y), max_eq_right he]
  · rcases le_total y (1 - epsilon) with h2 | h2
    · rw [min_eq_right h2, max_eq_right h1,
        min_eq_right (by linarith : 1 - y ≤ 1 - epsilon),
        max_eq_right (by linarith : epsilon ≤ 1 - y)]
    · rw [min_eq_left h2, max_eq_right he,
        min_eq_right (by linarith : 1 - y ≤ 1 - epsilon),
        max_eq_left (by linarith : 1 - y ≤ epsilon)]
      linarith

/-- A cross-entropy summand is nonnegative for a target in the unit
interval. -/
theorem bceTermV_nonneg {t : ℝ} (y : ℝ) (ht0 : 0 ≤ t) (ht1 : t ≤ 1) :
    0 ≤ bceTermV t y := by
  rw [bceTermV]
  have hc1 : 0 ≤ clampUnit y := epsilon_pos.le.trans (le_clampUnit y)
  have hc2 : clampUnit y ≤ 1 := (clampUnit_le y).trans (by linarith [epsilon_pos])
  have hl1 : Real.log (clampUnit y) ≤ 0 := Real.log_nonpos hc1 hc2
  have hl2 : Real.log (1 - clampUnit y) ≤ 0 :=
    Real.log_nonpos (by linarith) (by linarith)
  have hm1 := mul_nonpos_of_nonneg_of_nonpos ht0 hl1
  have hm2 := mul_nonpos_of_nonneg_of_nonpos (by linarith : (0:ℝ) ≤ 1 - t) hl2
  linarith

/-! ### The update loops -/

/-- updateMatrix preserves the outer length. -/
theorem updateMatrix_length (w g : List (List ℝ)) (lr : ℝ) :
    (updateMatrix w g lr).length = w.length := by
  simp [updateMatrix, List.enum_length]

/-- updateMatrix entry where the gradient cell is defined:
the gradient-descent step. -/
theorem updateMatrix_mget {w g : List (List ℝ)} {lr : ℝ} {i j : ℕ}
    (hi : i < w.length) (hj : j < (w[i]).length)
    (hgi : i < g.length) (hgj : j < (g[i]).length) :
    mget (updateMatrix w g lr) i j = mget w i j - lr * mget g i j := by
  rw [mget, updateMatrix, listGetDEnumMap _ _ _ _ hi,
    listGetDEnumMap _ _ _ _ hj, List.getElem?_eq_getElem hgi]
  simp only [Option.some_bind, List.getElem?_eq_getElem hgj]
  rw [mget, mget, List.getD_eq_getElem _ _ hi, List.getD_eq_getElem _ _ hj,
    List.getD_eq_getElem _ _ hgi, List.getD_eq_getElem _ _ hgj]

/-- updateVector preserves the length. -/
theorem updateVector_length (b g : List ℝ) (lr : ℝ) :
    (updateVector b g lr).length = b.length := by
  simp [updateVector, List.enum_length]

/-- updateVector entry where the gradient entry is defined:
the gradient-descent step. -/
theorem updateVector_vget {b g : List ℝ} {lr : ℝ} {i : ℕ}
    (hi : i < b.length) (hgi : i < g.length) :
    vget (updateVector b g lr) i = vget b i - lr * vget g i := by
  rw [vget, updateVector, listGetDEnumMap _ _ _ _ hi,
    List.getElem?_eq_getElem hgi]
  simp only []
  rw [vgetElem hi, vgetElem hgi]

/-! ### Gradient tensor dimensions -/

section Dims

variable {net : NeuralNetwork} {I H O : ℕ} {inputs targets : List ℝ}

/-- weights2Gradients has one row per hidden unit. -/
theorem weights2GradientsV_length (hwf : WellFormed net I H O)
    (hin : inputs.length = I) :
    (weights2GradientsV net inputs targets).length = H := by
  rw [weights2GradientsV, List.length_map, hiddenPostV_length hwf hin]

/-- weights2Gradients rows have one entry per output unit. -/
theorem weights2GradientsV_row_length (hwf : WellFormed net I H O)
    (hin : inputs.length = I) {h : ℕ}
    (hh : h < (weights2GradientsV net inputs targets).length) :
    ((weights2GradientsV net inputs targets)[h]).length = O := by
  simp only [weights2GradientsV] at hh ⊢
  rw [List.getElem_map, List.length_map, outputGradientsV_length hwf hin]

/-- weights1Gradients has one row per input unit. -/
theorem weights1GradientsV_length (hin : inputs.length = I) :
    (weights1GradientsV net inputs targets).length = I := by
  rw [weights1GradientsV, List.length_map, hin]

/-- weights1Gradients rows have one entry per hidden unit. -/
theorem weights1GradientsV_row_length (hwf : WellFormed net I H O) {i : ℕ}
    (hi : i < (weights1GradientsV net inputs targets).length) :
    ((weights1GradientsV net inputs targets)[i]).length = H := by
  simp only [weights1GradientsV] at hi ⊢
  rw [List.getElem_map, List.length_map, hiddenGradientsV_length hwf]

end Dims


/-! ### Example data facts -/

/-- The concrete example engine is well formed with sizes 2, 1, 1. -/
theorem exNet_wf : WellFormed exNet 2 1 1 := by
  constructor <;> simp [exNet]

/-- Claim C10: for every engine state and well-dimensioned data, the forward
section of the trainStep record agrees with predict evaluated on the
pre-step parameters: outputPost equals predict(inputs), and hiddenPre,
hiddenPost and outputPre are the corresponding intermediates of that same
forward computation, while the snapshotted parameters are the pre-step
ones. -/
theorem trainStep_forward_is_predict (net : NeuralNetwork)
    (inputs targets : List ℝ) (I H O : ℕ) (hwf : WellFormed net I H O)
    (hin : inputs.length = I) (htg : targets.length = O) :
    (trainStep net inputs targets).1.forward.outputPost = predict net inputs ∧
    (trainStep net inputs targets).1.forward.hiddenPre =
      vectorAdd (matrixMultiply net.weights1 inputs) net.biases1 ∧
    (trainStep net inputs targets).1.forward.hiddenPost =
      ((trainStep net inputs targets).1.forward.hiddenPre).map sigmoid ∧
    (trainStep net inputs targets).1.forward.outputPre =
      vectorAdd
        (matrixMultiply net.weights2
          ((trainStep net inputs targets).1.forward.hiddenPost))
        net.biases2 ∧
    (trainStep net inputs targets).1.forward.inputs = inputs ∧
    (trainStep net inputs targets).1.forward.weights1 = net.weights1 ∧
    (trainStep net inputs targets).1.forward.weights2 = net.weights2 ∧
    (trainStep net inputs targets).1.forward.biases1 = net.biases1 ∧
    (trainStep net inputs targets).1.forward.biases2 = net.biases2 := by
  obtain ⟨w1, w2, b1, b2, lr, tt⟩ := net
  cases tt <;> exact ⟨rfl, rfl, rfl, rfl, rfl, rfl, rfl, rfl, rfl⟩

/-- Witness for C10 at the concrete engine. -/
theorem trainStep_forward_is_predict_witness :
    (trainStep exNet [1, 0] [1]).1.forward.outputPost = predict exNet [1, 0] ∧
    (trainStep exNet [1, 0] [1]).1.forward.weights1 = exNet.weights1 :=
  have h := trainStep_forward_is_predict exNet [1, 0] [1] 2 1 1 exNet_wf rfl rfl
  ⟨h.1, h.2.2.2.2.2.1⟩

/-- Claim C2: for both task types, each outputGradients entry returned by
trainStep is exactly outputPost minus the target. -/
theorem trainStep_outputGradients_formula (net : NeuralNetwork)
    (inputs targets : List ℝ) (I H O : ℕ) (hwf : WellFormed net I H O)
    (hin : inputs.length = I) (htg : targets.length = O) :
    ∀ o, o < O →
      vget ((trainStep net inputs targets).1.backward.outputGradients) o =
        vget ((trainStep net inputs targets).1.forward.outputPost) o -
          vget targets o :=
  fun _ ho => outputGradientsV_getD hwf hin ho

/-- Witness for C2 at the concrete engine. -/
theorem trainStep_outputGradients_formula_witness :
    vget ((trainStep exNet [1, 0] [1]).1.backward.outputGradients) 0 =
      vget ((trainStep exNet [1, 0] [1]).1.forward.outputPost) 0 -
        vget [1] 0 :=
  trainStep_outputGradients_formula exNet [1, 0] [1] 2 1 1 exNet_wf rfl rfl 0
    (by decide)

/-- Claim C1: each entry of the after section equals the forward-section
entry minus learningRate times the gradient entry, for all four parameter
tensors, and the post-call engine parameters equal the after section. -/
theorem trainStep_applies_update (net : NeuralNetwork)
    (inputs targets : List ℝ) (I H O : ℕ) (hwf : WellFormed net I H O)
    (hin : inputs.length = I) (htg : targets.length = O) :
    (∀ i j, i < I → j < H →
      mget ((trainStep net inputs targets).1.after.weights1) i j =
        mget ((trainStep net inputs targets).1.forward.weights1) i j -
          net.learningRate *
            mget ((trainStep net inputs targets).1.backward.weights1Gradients) i j) ∧
    (∀ h o, h < H → o < O →
      mget ((trainStep net inputs targets).1.after.weights2) h o =
        mget ((trainStep net inputs targets).1.forward.weights2) h o -
          net.learningRate *
            mget ((trainStep net inputs targets).1.backward.weights2Gradients) h o) ∧
    (∀ h, h < H →
      vget ((trainStep net inputs targets).1.after.biases1) h =
        vget ((trainStep net inputs targets).1.forward.biases1) h -
          net.learningRate *
            vget ((trainStep net inputs targets).1.backward.biases1Gradients) h) ∧
    (∀ o, o < O →
      vget ((trainStep net inputs targets).1.after.biases2) o =
        vget ((trainStep net inputs targets).1.forward.biases2) o -
          net.learningRate *
            vget ((trainStep net inputs targets).1.backward.biases2Gradients) o) ∧
    (trainStep net inputs targets).2.weights1 =
      (trainStep net inputs targets).1.after.weights1 ∧
    (trainStep net inputs targets).2.weights2 =
      (trainStep net inputs targets).1.after.weights2 ∧
    (trainStep net inputs targets).2.biases1 =
      (trainStep net inputs targets).1.after.biases1 ∧
    (trainStep net inputs targets).2.biases2 =
      (trainStep net inputs targets).1.after.biases2 := by
  refine ⟨?_, ?_, ?_, ?_, rfl, rfl, rfl, rfl⟩
  · intro i j hi hj
    have hiw : i < net.weights1.length := by rw [hwf.w1Len]; exact hi
    have hjw : j < (net.weights1[i]).length := by
      rw [hwf.w1Rows _ (List.getElem_mem hiw)]; exact hj
    have hig : i < (weights1GradientsV net inputs targets).length := by
      rw [weights1GradientsV_length hin]; exact hi
    have hjg : j < ((weights1GradientsV net inputs targets)[i]).length := by
      rw [weights1GradientsV_row_length hwf hig]; exact hj
    exact updateMatrix_mget hiw hjw hig hjg
  · intro h o hh ho
    have hiw : h < net.weights2.length := by rw [hwf.w2Len]; exact hh
    have hjw : o < (net.weights2[h]).length := by
      rw [hwf.w2Rows _ (List.getElem_mem hiw)]; exact ho
    have hig : h < (weights2GradientsV net inputs targets).length := by
      rw [weights2GradientsV_length hwf hin]; exact hh
    have hjg : o < ((weights2GradientsV net inputs targets)[h]).length := by
      rw [weights2GradientsV_row_length hwf hin hig]; exact ho
    exact updateMatrix_mget hiw hjw hig hjg
  · intro h hh
    exact updateVector_vget (by rw [hwf.b1Len]; exact hh)
      (by rw [hiddenGradientsV_length hwf]; exact hh)
  · intro o ho
    exact updateVector_vget (by rw [hwf.b2Len]; exact ho)
      (by rw [outputGradientsV_length hwf hin]; exact ho)

/-- Witness for C1 at the concrete engine. -/
theorem trainStep_applies_update_witness :
    mget ((trainStep exNet [1, 0] [1]).1.after.weights1) 0 0 =
      mget ((trainStep exNet [1, 0] [1]).1.forward.weights1) 0 0 -
        exNet.learningRate *
          mget ((trainStep exNet [1, 0] [1]).1.backward.weights1Gradients) 0 0 ∧
    vget ((trainStep exNet [1, 0] [1]).1.after.biases2) 0 =
      vget ((trainStep exNet [1, 0] [1]).1.forward.biases2) 0 -
        exNet.learningRate *
          vget ((trainStep exNet [1, 0] [1]).1.backward.biases2Gradients) 0 ∧
    (trainStep exNet [1, 0] [1]).2.weights1 =
      (trainStep exNet [1, 0] [1]).1.after.weights1 :=
  have h := trainStep_applies_update exNet [1, 0] [1] 2 1 1 exNet_wf rfl rfl
  ⟨h.1 0 0 (by decide) (by decide), h.2.2.2.1 0 (by decide), h.2.2.2.2.1⟩


/-- Claim C3: predict computes hiddenPre as the weights1 contraction plus
biases1, hiddenPost as elementwise sigmoid, outputPre as the weights2
contraction plus biases2, and the output as sigmoid(outputPre) for
classification or outputPre for regression. -/
theorem predict_formula (net : NeuralNetwork) (inputs : List ℝ) (I H O : ℕ)
    (hwf : WellFormed net I H O) (hin : inputs.length = I) :
    (∀ h, h < H →
      vget (hiddenPreV net inputs) h =
        (∑ i ∈ Finset.range I, mget net.weights1 i h * vget inputs i) +
          vget net.biases1 h) ∧
    (∀ h, h < H →
      vget (hiddenPostV net inputs) h =
        sigmoid (vget (hiddenPreV net inputs) h)) ∧
    (∀ o, o < O →
      vget (outputPreV net inputs) o =
        (∑ h ∈ Finset.range H,
            mget net.weights2 h o * vget (hiddenPostV net inputs) h) +
          vget net.biases2 o) ∧
    (net.taskType = TaskType.classification →
      predict net inputs = (outputPreV net inputs).map sigmoid) ∧
    (net.taskType = TaskType.regression →
      predict net inputs = outputPreV net inputs) := by
  refine ⟨?_, ?_, ?_, ?_, ?_⟩
  · intro h hh
    rw [hiddenPreV_getD hwf hin hh]
    congr 1
    rw [dotColumn_eq_sum net.weights1 inputs h (by rw [hin, hwf.w1Len])
      hwf.w1Rows hh, hwf.w1Len]
    exact Finset.sum_congr rfl fun i _ => mul_comm _ _
  · intro h hh
    exact hiddenPostV_getD hwf hin hh
  · intro o ho
    rw [outputPreV_getD hwf hin ho]
    congr 1
    rw [dotColumn_eq_sum net.weights2 (hiddenPostV net inputs) o
      (by rw [hiddenPostV_length hwf hin, hwf.w2Len]) hwf.w2Rows ho, hwf.w2Len]
    exact Finset.sum_congr rfl fun i _ => mul_comm _ _
  · intro hc
    simp only [predict, hc, outputPreV, hiddenPostV, hiddenPreV]
  · intro hc
    simp only [predict, hc, outputPreV, hiddenPostV, hiddenPreV]

/-- Witness for C3 at the concrete engine. -/
theorem predict_formula_witness :
    vget (hiddenPostV exNet [1, 0]) 0 = sigmoid (vget (hiddenPreV exNet [1, 0]) 0) ∧
    predict exNet [1, 0] = (outputPreV exNet [1, 0]).map sigmoid :=
  have h := predict_formula exNet [1, 0] 2 1 1 exNet_wf rfl
  ⟨h.2.1 0 (by decide), h.2.2.2.1 rfl⟩

/-- Claim C4: the backward gradients of trainStep satisfy the
backpropagation identities, stated against the pre-update parameters
snapshotted in the forward section, and the bias gradients equal the
output and hidden gradients. -/
theorem trainStep_backward_formula (net : NeuralNetwork)
    (inputs targets : List ℝ) (I H O : ℕ) (hwf : WellFormed net I H O)
    (hin : inputs.length = I) (htg : targets.length = O) :
    (∀ h, h < H →
      vget ((trainStep net inputs targets).1.backward.hiddenGradients) h =
        (∑ o ∈ Finset.range O,
            vget ((trainStep net inputs targets).1.backward.outputGradients) o *
              mget ((trainStep net inputs targets).1.forward.weights2) h o) *
          (sigmoid (vget ((trainStep net inputs targets).1.forward.hiddenPre) h) *
            (1 - sigmoid (vget ((trainStep net inputs targets).1.forward.hiddenPre) h)))) ∧
    (∀ h o, h < H → o < O →
      mget ((trainStep net inputs targets).1.backward.weights2Gradients) h o =
        vget ((trainStep net inputs targets).1.forward.hiddenPost) h *
          vget ((trainStep net inputs targets).1.backward.outputGradients) o) ∧
    (∀ i h, i < I → h < H →
      mget ((trainStep net inputs targets).1.backward.weights1Gradients) i h =
        vget ((trainStep net inputs targets).1.forward.inputs) i *
          vget ((trainStep net inputs targets).1.backward.hiddenGradients) h) ∧
    (trainStep net inputs targets).1.backward.biases2Gradients =
      (trainStep net inputs targets).1.backward.outputGradients ∧
    (trainStep net inputs targets).1.backward.biases1Gradients =
      (trainStep net inputs targets).1.backward.hiddenGradients := by
  refine ⟨?_, ?_, ?_, rfl, rfl⟩
  · intro h hh
    show vget (hiddenGradientsV net inputs targets) h =
      (∑ o ∈ Finset.range O,
          vget (outputGradientsV net inputs targets) o * mget net.weights2 h o) *
        (sigmoid (vget (hiddenPreV net inputs) h) *
          (1 - sigmoid (vget (hiddenPreV net inputs) h)))
    rw [hiddenGradientsV_getD hwf hin hh, hiddenErrorValuesV_getD hwf hin hh]
    rfl
  · intro h o hh ho
    exact weights2GradientsV_mget hwf hin hh ho
  · intro i h hi hh
    exact weights1GradientsV_mget hwf hin hi hh

/-- Witness for C4 at the concrete engine. -/
theorem trainStep_backward_formula_witness :
    mget ((trainStep exNet [1, 0] [1]).1.backward.weights2Gradients) 0 0 =
      vget ((trainStep exNet [1, 0] [1]).1.forward.hiddenPost) 0 *
        vget ((trainStep exNet [1, 0] [1]).1.backward.outputGradients) 0 ∧
    (trainStep exNet [1, 0] [1]).1.backward.biases2Gradients =
      (trainStep exNet [1, 0] [1]).1.backward.outputGradients :=
  have h := trainStep_backward_formula exNet [1, 0] [1] 2 1 1 exNet_wf rfl rfl
  ⟨h.2.1 0 0 (by decide) (by decide), h.2.2.2.1⟩

/-- Claim C5: the loss is the mean clamped binary cross-entropy for
classification and the mean half squared error for regression. -/
theorem trainStep_loss_formula (net : NeuralNetwork)
    (inputs targets : List ℝ) (I H O : ℕ) (hwf : WellFormed net I H O)
    (hin : inputs.length = I) (htg : targets.length = O) :
    (net.taskType = TaskType.classification →
      (trainStep net inputs targets).1.backward.loss =
        -(∑ o ∈ Finset.range O,
            (vget targets o *
                Real.log (clampUnit
                  (vget ((trainStep net inputs targets).1.forward.outputPost) o)) +
              (1 - vget targets o) *
                Real.log (clampUnit
                  (1 - vget ((trainStep net inputs targets).1.forward.outputPost) o)))) /
          (O : ℝ)) ∧
    (net.taskType = TaskType.regression →
      (trainStep net inputs targets).1.backward.loss =
        (∑ o ∈ Finset.range O,
            0.5 * (vget targets o -
              vget ((trainStep net inputs targets).1.forward.outputPost) o) ^ 2) /
          (O : ℝ)) := by
  constructor
  · intro hc
    show lossV net inputs targets =
      -(∑ o ∈ Finset.range O,
          (vget targets o *
              Real.log (clampUnit (vget (outputPostV net inputs) o)) +
            (1 - vget targets o) *
              Real.log (clampUnit (1 - vget (outputPostV net inputs) o)))) /
        (O : ℝ)
    have hsum : ∀ i ∈ Finset.range O,
        bceTermV (targets.getD i 0) ((outputPostV net inputs).getD i 0) =
          -(vget targets i *
              Real.log (clampUnit (vget (outputPostV net inputs) i)) +
            (1 - vget targets i) *
              Real.log (clampUnit (1 - vget (outputPostV net inputs) i))) := by
      intro i _
      rw [bceTermV, one_sub_clampUnit]
      rfl
    simp only [lossV, hc]
    rw [listEnumMapSum _ (0 : ℝ), outputPostV_length hwf hin]
    rw [Finset.sum_congr rfl hsum, Finset.sum_neg_distrib]
  · intro hc
    show lossV net inputs targets =
      (∑ o ∈ Finset.range O,
          0.5 * (vget targets o - vget (outputPostV net inputs) o) ^ 2) /
        (O : ℝ)
    simp only [lossV, hc]
    rw [listEnumMapSum _ (0 : ℝ), outputPostV_length hwf hin]
    rfl

/-- Witness for C5 at the concrete engine. -/
theorem trainStep_loss_formula_witness :
    (trainStep exNet [1, 0] [1]).1.backward.loss =
      -(∑ o ∈ Finset.range 1,
          (vget [1] o *
              Real.log (clampUnit
                (vget ((trainStep exNet [1, 0] [1]).1.forward.outputPost) o)) +
            (1 - vget [1] o) *
              Real.log (clampUnit
                (1 - vget ((trainStep exNet [1, 0] [1]).1.forward.outputPost) o)))) /
        ((1 : ℕ) : ℝ) :=
  (trainStep_loss_formula exNet [1, 0] [1] 2 1 1 exNet_wf rfl rfl).1 rfl

/-- Claim C6: the loss is nonnegative for both task types; for
classification the targets are assumed to lie in the unit interval. -/
theorem trainStep_loss_nonneg (net : NeuralNetwork)
    (inputs targets : List ℝ) (I H O : ℕ) (hwf : WellFormed net I H O)
    (hin : inputs.length = I) (htg : targets.length = O)
    (hcls : net.taskType = TaskType.classification →
      ∀ t ∈ targets, 0 ≤ t ∧ t ≤ 1) :
    0 ≤ (trainStep net inputs targets).1.backward.loss := by
  show 0 ≤ lossV net inputs targets
  rcases htt : net.taskType with _ | _
  · simp only [lossV, htt]
    rw [listEnumMapSum _ (0 : ℝ), outputPostV_length hwf hin]
    refine div_nonneg (Finset.sum_nonneg fun i hi => ?_) (Nat.cast_nonneg _)
    show 0 ≤ bceTermV (targets.getD i 0) ((outputPostV net inputs).getD i 0)
    have hiO : i < O := Finset.mem_range.mp hi
    have hit : i < targets.length := by rw [htg]; exact hiO
    have hmem : targets.getD i 0 ∈ targets := by
      rw [List.getD_eq_getElem _ _ hit]
      exact List.getElem_mem hit
    obtain ⟨h0, h1⟩ := hcls htt _ hmem
    exact bceTermV_nonneg _ h0 h1
  · simp only [lossV, htt]
    refine div_nonneg (List.sum_nonneg ?_) (Nat.cast_nonneg _)
    intro x hx
    simp only [List.mem_map] at hx
    obtain ⟨p, hp, rfl⟩ := hx
    show (0 : ℝ) ≤ 0.5 * (targets.getD p.1 0 - p.2) ^ 2
    positivity

/-- Witness for C6 at the concrete engine. -/
theorem trainStep_loss_nonneg_witness :
    0 ≤ (trainStep exNet [1, 0] [1]).1.backward.loss :=
  trainStep_loss_nonneg exNet [1, 0] [1] 2 1 1 exNet_wf rfl rfl
    (fun _ => by simp)

/-- Claim C7: both logarithm arguments of the classification loss (the
clamped output and its complement, exactly as they appear in bceTermV and
hence in the loss of trainStep) lie in the interval from epsilon to
1 - epsilon, for every real output value. -/
theorem clampUnit_log_bounds (y : ℝ) :
    (epsilon ≤ clampUnit y ∧ clampUnit y ≤ 1 - epsilon) ∧
    (epsilon ≤ 1 - clampUnit y ∧ 1 - clampUnit y ≤ 1 - epsilon) := by
  have h1 := le_clampUnit y
  have h2 := clampUnit_le y
  have h3 := epsilon_le_one_sub_epsilon
  exact ⟨⟨h1, h2⟩, ⟨by linarith, by linarith⟩⟩


/-- The concrete regression engine is well formed with sizes 2, 1, 1. -/
theorem exNet9_wf : WellFormed exNet9 2 1 1 := by
  constructor <;> simp [exNet9]

/-- The sigmoid is strictly larger at 1 than at 0. -/
theorem sigmoid_zero_lt_sigmoid_one : sigmoid 0 < sigmoid 1 := by
  rw [sigmoid, sigmoid, neg_zero]
  have h1 : Real.exp (-1) < Real.exp 0 := Real.exp_lt_exp.mpr (by norm_num)
  have hp : 0 < 1 + Real.exp (-1) := by positivity
  apply one_div_lt_one_div_of_lt hp
  linarith

/-- Counterexample to claim C9: on an input shorter than inputSize, predict
does not use the defined entries at all.  Changing the sole provided entry
from 1 to 0 leaves the output unchanged, although the same change does
alter the output when the input has the right length. -/
theorem predict_short_input_counterexample :
    predict exNet9 [1] = predict exNet9 [0] ∧
    predict exNet9 [1, 0] ≠ predict exNet9 [0, 0] := by
  constructor
  · rfl
  · have e1 : predict exNet9 [1, 0] =
        [sigmoid ((1 * 1 + (0 * 1 + 0)) + 0) * 1 + 0 + 0] := rfl
    have e0 : predict exNet9 [0, 0] =
        [sigmoid ((0 * 1 + (0 * 1 + 0)) + 0) * 1 + 0 + 0] := rfl
    rw [e1, e0]
    simp only [ne_eq, List.cons.injEq, and_true]
    intro hAB
    have h1 : ((1:ℝ) * 1 + (0 * 1 + 0)) + 0 = 1 := by norm_num
    have h0 : ((0:ℝ) * 1 + (0 * 1 + 0)) + 0 = 0 := by norm_num
    rw [h1, h0] at hAB
    have heq : sigmoid 1 = sigmoid 0 := by linarith
    exact absurd heq.symm (ne_of_lt sigmoid_zero_lt_sigmoid_one)

/-- Amended claim C9: on an input whose length differs from inputSize,
predict never fails (it is total) but it replaces the whole input-weights
product by a zero vector, so it behaves exactly as if the input were the
all-zero vector of the right length; the defined entries are ignored. -/
theorem predict_length_mismatch_ignores_input (net : NeuralNetwork)
    (inputs : List ℝ) (I H O : ℕ) (hwf : WellFormed net I H O)
    (hlen : inputs.length ≠ I) :
    predict net inputs = predict net (List.replicate I 0) := by
  obtain ⟨r0, rest, hW⟩ : ∃ r0 rest, net.weights1 = r0 :: rest := by
    cases hW : net.weights1 with
    | nil => exact absurd hW hwf.w1_ne_nil
    | cons a l => exact ⟨a, l, rfl⟩
  have hr0 : r0.length = H := hwf.w1Rows r0 (hW ▸ List.mem_cons_self _ _)
  have hL : matrixMultiply net.weights1 inputs = List.replicate H 0 := by
    rw [matrixMultiply_mismatch hW (by rw [hwf.w1Len]; exact hlen), hr0]
  have hR : matrixMultiply net.weights1 (List.replicate I 0) =
      List.replicate H 0 := by
    have hlen2 : (List.replicate I (0:ℝ)).length = (r0 :: rest).length := by
      rw [List.length_replicate, ← hwf.w1Len, hW]
    rw [hW, matrixMultiply, if_pos hlen2]
    refine List.eq_replicate_iff.mpr ⟨by simp [hr0], ?_⟩
    intro x hx
    simp only [List.mem_map] at hx
    obtain ⟨j, hj, rfl⟩ := hx
    exact dotColumn_of_zero _ _ _ fun y hy => List.eq_of_mem_replicate hy
  simp only [predict]
  rw [hL, hR]

/-- Witness for the amended C9 at the concrete regression engine. -/
theorem predict_length_mismatch_ignores_input_witness :
    predict exNet9 [5] = predict exNet9 (List.replicate 2 0) :=
  predict_length_mismatch_ignores_input exNet9 [5] 2 1 1 exNet9_wf (by decide)


/-! ### Store allocation lemmas -/

/-- The address returned by allocVec. -/
theorem allocVec_fst (s : Store) (v : List ℝ) : (allocVec s v).1 = s.nv := rfl

/-- allocVec preserves older number-array cells. -/
theorem allocVec_vec_lt (s : Store) (v : List ℝ) {a : ℕ} (h : a < s.nv) :
    (allocVec s v).2.vec a = s.vec a :=
  Function.update_noteq (Nat.ne_of_lt h) _ _

/-- The allocated cell holds the given values. -/
theorem allocVec_vec_self (s : Store) (v : List ℝ) :
    (allocVec s v).2.vec s.nv = v :=
  Function.update_same _ _ _

/-- allocVecs does not touch the array-of-array counter. -/
theorem allocVecs_na : ∀ (vs : List (List ℝ)) (s : Store),
    (allocVecs s vs).2.na = s.na
  | [], _ => rfl
  | v :: vs, s => allocVecs_na vs (allocVec s v).2

/-- allocVecs does not touch the array-of-array cells. -/
theorem allocVecs_arr : ∀ (vs : List (List ℝ)) (s : Store),
    (allocVecs s vs).2.arr = s.arr
  | [], _ => rfl
  | v :: vs, s => allocVecs_arr vs (allocVec s v).2

/-- allocVecs only grows the number-array counter. -/
theorem allocVecs_nv_le : ∀ (vs : List (List ℝ)) (s : Store),
    s.nv ≤ (allocVecs s vs).2.nv
  | [], _ => le_refl _
  | v :: vs, s =>
    le_trans (Nat.le_succ _) (allocVecs_nv_le vs (allocVec s v).2)

/-- allocVecs preserves older number-array cells. -/
theorem allocVecs_vec_lt : ∀ (vs : List (List ℝ)) (s : Store) (a : ℕ),
    a < s.nv → (allocVecs s vs).2.vec a = s.vec a
  | [], _, _, _ => rfl
  | v :: vs, s, a, h =>
    (allocVecs_vec_lt vs (allocVec s v).2 a
      (lt_trans h (Nat.lt_succ_self _))).trans (allocVec_vec_lt s v h)

/-- Every address returned by allocVecs is fresh and allocated by the end. -/
theorem allocVecs_addrs : ∀ (vs : List (List ℝ)) (s : Store) (a : ℕ),
    a ∈ (allocVecs s vs).1 → s.nv ≤ a ∧ a < (allocVecs s vs).2.nv
  | [], _, a, h => absurd h (List.not_mem_nil a)
  | v :: vs, s, a, h => by
    rcases List.mem_cons.mp h with rfl | hmem
    · exact ⟨le_refl _,
        lt_of_lt_of_le (Nat.lt_succ_self _) (allocVecs_nv_le vs (allocVec s v).2)⟩
    · have ih := allocVecs_addrs vs (allocVec s v).2 a hmem
      exact ⟨le_trans (Nat.le_succ _) ih.1, ih.2⟩

/-- Reading back the cells allocated by allocVecs gives the input values. -/
theorem allocVecs_read : ∀ (vs : List (List ℝ)) (s : Store),
    ((allocVecs s vs).1).map (allocVecs s vs).2.vec = vs
  | [], _ => rfl
  | v :: vs, s => by
    show ((allocVec s v).1 :: (allocVecs (allocVec s v).2 vs).1).map
        (allocVecs (allocVec s v).2 vs).2.vec = v :: vs
    rw [List.map_cons, allocVecs_read vs (allocVec s v).2, allocVec_fst]
    congr 1
    rw [allocVecs_vec_lt vs (allocVec s v).2 s.nv (Nat.lt_succ_self _)]
    exact allocVec_vec_self s v

/-! ### copyMat and copyVec -/

/-- The address returned by copyMat. -/
theorem copyMat_fst (s : Store) (src : ℕ) : (copyMat s src).1 = s.na := by
  show (allocVecs s (readMat s src)).2.na = s.na
  exact allocVecs_na _ _

/-- copyMat allocates exactly one array-of-array cell. -/
theorem copyMat_na (s : Store) (src : ℕ) :
    (copyMat s src).2.na = s.na + 1 := by
  show (allocVecs s (readMat s src)).2.na + 1 = s.na + 1
  rw [allocVecs_na]

/-- copyMat only grows the number-array counter. -/
theorem copyMat_nv_le (s : Store) (src : ℕ) : s.nv ≤ (copyMat s src).2.nv :=
  allocVecs_nv_le _ _

/-- copyMat preserves older number-array cells. -/
theorem copyMat_vec_lt (s : Store) (src : ℕ) {a : ℕ} (h : a < s.nv) :
    (copyMat s src).2.vec a = s.vec a :=
  allocVecs_vec_lt _ _ _ h

/-- copyMat preserves every other array-of-array cell. -/
theorem copyMat_arr_ne (s : Store) (src : ℕ) {x : ℕ} (h : x ≠ s.na) :
    (copyMat s src).2.arr x = s.arr x := by
  show Function.update (allocVecs s (readMat s src)).2.arr
      (allocVecs s (readMat s src)).2.na (allocVecs s (readMat s src)).1 x =
    s.arr x
  rw [Function.update_noteq (by rw [allocVecs_na]; exact h), allocVecs_arr]

/-- The allocated outer cell holds the freshly allocated row addresses. -/
theorem copyMat_arr_self (s : Store) (src : ℕ) :
    (copyMat s src).2.arr (copyMat s src).1 =
      (allocVecs s (readMat s src)).1 := by
  show Function.update (allocVecs s (readMat s src)).2.arr
      (allocVecs s (readMat s src)).2.na (allocVecs s (readMat s src)).1
      ((copyMat s src).1) = (allocVecs s (readMat s src)).1
  rw [copyMat_fst, ← allocVecs_na (readMat s src) s]
  exact Function.update_same _ _ _

/-- Every row address of a copied matrix is fresh and allocated. -/
theorem copyMat_rows (s : Store) (src : ℕ) (r : ℕ)
    (hr : r ∈ (copyMat s src).2.arr (copyMat s src).1) :
    s.nv ≤ r ∧ r < (copyMat s src).2.nv := by
  rw [copyMat_arr_self] at hr
  exact allocVecs_addrs _ _ _ hr

/-- Reading the copy gives the original values. -/
theorem copyMat_read (s : Store) (src : ℕ) :
    readMat (copyMat s src).2 (copyMat s src).1 = readMat s src := by
  rw [readMat, copyMat_arr_self]
  exact allocVecs_read _ _

/-- The address returned by copyVec. -/
theorem copyVec_fst (s : Store) (src : ℕ) : (copyVec s src).1 = s.nv := rfl

/-- copyVec allocates exactly one number-array cell. -/
theorem copyVec_nv (s : Store) (src : ℕ) :
    (copyVec s src).2.nv = s.nv + 1 := rfl

/-- copyVec does not touch the array-of-array cells. -/
theorem copyVec_arr (s : Store) (src : ℕ) : (copyVec s src).2.arr = s.arr :=
  rfl

/-- copyVec does not touch the array-of-array counter. -/
theorem copyVec_na (s : Store) (src : ℕ) : (copyVec s src).2.na = s.na := rfl

/-- copyVec preserves older number-array cells. -/
theorem copyVec_vec_lt (s : Store) (src : ℕ) {a : ℕ} (h : a < s.nv) :
    (copyVec s src).2.vec a = s.vec a :=
  Function.update_noteq (Nat.ne_of_lt h) _ _

/-- The copied cell holds the original values. -/
theorem copyVec_read (s : Store) (src : ℕ) :
    (copyVec s src).2.vec ((copyVec s src).1) = readVec s src :=
  Function.update_same _ _ _

/-- Two stores agreeing on an outer cell and on the rows it references
read the same matrix. -/
theorem readMat_congr {s1 s2 : Store} {a : ℕ}
    (harr : s2.arr a = s1.arr a)
    (hvec : ∀ r ∈ s1.arr a, s2.vec r = s1.vec r) :
    readMat s2 a = readMat s1 a := by
  rw [readMat, readMat, harr]
  exact List.map_congr_left hvec


/-! ### copy4 lemmas -/

section Copy4

variable (s : Store) (m1 m2 v1 v2 : ℕ)

/-- copy4 preserves older number-array cells. -/
theorem copy4_vec_lt {a : ℕ} (h : a < s.nv) :
    (copy4 s m1 m2 v1 v2).2.vec a = s.vec a := by
  have h1 : a < (copyMat s m1).2.nv := lt_of_lt_of_le h (copyMat_nv_le s m1)
  have h2 : a < (copyMat (copyMat s m1).2 m2).2.nv :=
    lt_of_lt_of_le h1 (copyMat_nv_le _ m2)
  have h3 : a < (copyVec (copyMat (copyMat s m1).2 m2).2 v1).2.nv := by
    rw [copyVec_nv]; omega
  show (copyVec (copyVec (copyMat (copyMat s m1).2 m2).2 v1).2 v2).2.vec a =
    s.vec a
  rw [copyVec_vec_lt _ _ h3, copyVec_vec_lt _ _ h2, copyMat_vec_lt _ _ h1,
    copyMat_vec_lt _ _ h]

/-- copy4 preserves older array-of-array cells. -/
theorem copy4_arr_lt {a : ℕ} (h : a < s.na) :
    (copy4 s m1 m2 v1 v2).2.arr a = s.arr a := by
  show (copyVec (copyVec (copyMat (copyMat s m1).2 m2).2 v1).2 v2).2.arr a =
    s.arr a
  rw [copyVec_arr, copyVec_arr,
    copyMat_arr_ne _ _ (by rw [copyMat_na]; omega),
    copyMat_arr_ne _ _ (Nat.ne_of_lt h)]

/-- copy4 only grows the number-array counter. -/
theorem copy4_nv_le : s.nv ≤ (copy4 s m1 m2 v1 v2).2.nv := by
  show s.nv ≤ (copyVec (copyVec (copyMat (copyMat s m1).2 m2).2 v1).2 v2).2.nv
  rw [copyVec_nv, copyVec_nv]
  have ha := copyMat_nv_le s m1
  have hb := copyMat_nv_le (copyMat s m1).2 m2
  omega

/-- copy4 allocates exactly two array-of-array cells. -/
theorem copy4_na : (copy4 s m1 m2 v1 v2).2.na = s.na + 2 := by
  show (copyVec (copyVec (copyMat (copyMat s m1).2 m2).2 v1).2 v2).2.na =
    s.na + 2
  rw [copyVec_na, copyVec_na, copyMat_na, copyMat_na]

/-- The first address allocated by copy4. -/
theorem copy4_addr1 : (copy4 s m1 m2 v1 v2).1.1 = s.na := copyMat_fst s m1

/-- The second address allocated by copy4. -/
theorem copy4_addr2 : (copy4 s m1 m2 v1 v2).1.2.1 = s.na + 1 := by
  show (copyMat (copyMat s m1).2 m2).1 = s.na + 1
  rw [copyMat_fst, copyMat_na]

/-- The third address allocated by copy4 is fresh. -/
theorem copy4_addr3_ge : s.nv ≤ (copy4 s m1 m2 v1 v2).1.2.2.1 := by
  show s.nv ≤ (copyVec (copyMat (copyMat s m1).2 m2).2 v1).1
  rw [copyVec_fst]
  exact le_trans (copyMat_nv_le s m1) (copyMat_nv_le _ m2)

/-- The third address allocated by copy4 is allocated by the end. -/
theorem copy4_addr3_lt :
    (copy4 s m1 m2 v1 v2).1.2.2.1 < (copy4 s m1 m2 v1 v2).2.nv := by
  show (copyVec (copyMat (copyMat s m1).2 m2).2 v1).1 <
    (copyVec (copyVec (copyMat (copyMat s m1).2 m2).2 v1).2 v2).2.nv
  rw [copyVec_fst, copyVec_nv, copyVec_nv]
  omega

/-- The fourth address allocated by copy4 is fresh. -/
theorem copy4_addr4_ge : s.nv ≤ (copy4 s m1 m2 v1 v2).1.2.2.2 := by
  show s.nv ≤ (copyVec (copyVec (copyMat (copyMat s m1).2 m2).2 v1).2 v2).1
  rw [copyVec_fst, copyVec_nv]
  have ha := copyMat_nv_le s m1
  have hb := copyMat_nv_le (copyMat s m1).2 m2
  omega

/-- The fourth address allocated by copy4 is allocated by the end. -/
theorem copy4_addr4_lt :
    (copy4 s m1 m2 v1 v2).1.2.2.2 < (copy4 s m1 m2 v1 v2).2.nv := by
  show (copyVec (copyVec (copyMat (copyMat s m1).2 m2).2 v1).2 v2).1 <
    (copyVec (copyVec (copyMat (copyMat s m1).2 m2).2 v1).2 v2).2.nv
  simp only [copyVec_fst, copyVec_nv]
  omega

/-- Row addresses of the first copied matrix are fresh and allocated. -/
theorem copy4_rows1 (r : ℕ)
    (hr : r ∈ (copy4 s m1 m2 v1 v2).2.arr ((copy4 s m1 m2 v1 v2).1.1)) :
    s.nv ≤ r ∧ r < (copy4 s m1 m2 v1 v2).2.nv := by
  have he : (copy4 s m1 m2 v1 v2).2.arr ((copy4 s m1 m2 v1 v2).1.1) =
      (copyMat s m1).2.arr ((copyMat s m1).1) := by
    show (copyVec (copyVec (copyMat (copyMat s m1).2 m2).2 v1).2 v2).2.arr
        ((copyMat s m1).1) = (copyMat s m1).2.arr ((copyMat s m1).1)
    rw [copyVec_arr, copyVec_arr,
      copyMat_arr_ne _ _ (by rw [copyMat_fst, copyMat_na]; omega)]
  rw [he] at hr
  have hb := copyMat_rows s m1 r hr
  have hch : (copyMat s m1).2.nv ≤ (copy4 s m1 m2 v1 v2).2.nv := by
    show (copyMat s m1).2.nv ≤
      (copyVec (copyVec (copyMat (copyMat s m1).2 m2).2 v1).2 v2).2.nv
    rw [copyVec_nv, copyVec_nv]
    have := copyMat_nv_le (copyMat s m1).2 m2
    omega
  exact ⟨hb.1, lt_of_lt_of_le hb.2 hch⟩

/-- Row addresses of the second copied matrix are fresh and allocated. -/
theorem copy4_rows2 (r : ℕ)
    (hr : r ∈ (copy4 s m1 m2 v1 v2).2.arr ((copy4 s m1 m2 v1 v2).1.2.1)) :
    s.nv ≤ r ∧ r < (copy4 s m1 m2 v1 v2).2.nv := by
  have he : (copy4 s m1 m2 v1 v2).2.arr ((copy4 s m1 m2 v1 v2).1.2.1) =
      (copyMat (copyMat s m1).2 m2).2.arr
        ((copyMat (copyMat s m1).2 m2).1) := by
    show (copyVec (copyVec (copyMat (copyMat s m1).2 m2).2 v1).2 v2).2.arr
        ((copyMat (copyMat s m1).2 m2).1) =
      (copyMat (copyMat s m1).2 m2).2.arr ((copyMat (copyMat s m1).2 m2).1)
    rw [copyVec_arr, copyVec_arr]
  rw [he] at hr
  have hb := copyMat_rows (copyMat s m1).2 m2 r hr
  have hch : (copyMat (copyMat s m1).2 m2).2.nv ≤
      (copy4 s m1 m2 v1 v2).2.nv := by
    show (copyMat (copyMat s m1).2 m2).2.nv ≤
      (copyVec (copyVec (copyMat (copyMat s m1).2 m2).2 v1).2 v2).2.nv
    rw [copyVec_nv, copyVec_nv]
    omega
  exact ⟨le_trans (copyMat_nv_le s m1) hb.1, lt_of_lt_of_le hb.2 hch⟩

/-- Reading the first copied matrix gives the original values. -/
theorem copy4_read1 :
    readMat (copy4 s m1 m2 v1 v2).2 ((copy4 s m1 m2 v1 v2).1.1) =
      readMat s m1 := by
  have hmain : readMat (copy4 s m1 m2 v1 v2).2 ((copy4 s m1 m2 v1 v2).1.1) =
      readMat (copyMat s m1).2 ((copyMat s m1).1) := by
    refine readMat_congr ?_ ?_
    · show (copyVec (copyVec (copyMat (copyMat s m1).2 m2).2 v1).2 v2).2.arr
          ((copyMat s m1).1) = (copyMat s m1).2.arr ((copyMat s m1).1)
      rw [copyVec_arr, copyVec_arr,
        copyMat_arr_ne _ _ (by rw [copyMat_fst, copyMat_na]; omega)]
    · intro r hr
      have hb := copyMat_rows s m1 r hr
      show (copyVec (copyVec (copyMat (copyMat s m1).2 m2).2 v1).2 v2).2.vec r =
        (copyMat s m1).2.vec r
      have hr2 : r < (copyMat (copyMat s m1).2 m2).2.nv :=
        lt_of_lt_of_le hb.2 (copyMat_nv_le _ _)
      have hr3 : r < (copyVec (copyMat (copyMat s m1).2 m2).2 v1).2.nv := by
        rw [copyVec_nv]; omega
      rw [copyVec_vec_lt _ _ hr3, copyVec_vec_lt _ _ hr2,
        copyMat_vec_lt _ _ hb.2]
  rw [hmain, copyMat_read]

/-- Reading a matrix valid in the base store is unaffected by copyMat. -/
theorem copyMat_readMat_other (s : Store) (src other : ℕ) (ho : other < s.na)
    (hrows : ∀ r ∈ s.arr other, r < s.nv) :
    readMat (copyMat s src).2 other = readMat s other := by
  refine readMat_congr (copyMat_arr_ne _ _ (Nat.ne_of_lt ho)) ?_
  intro r hr
  exact copyMat_vec_lt _ _ (hrows r hr)

/-- Reading the second copied matrix gives the original values, provided the
source matrix was valid in the base store. -/
theorem copy4_read2 (hm2 : m2 < s.na)
    (hrows2 : ∀ r ∈ s.arr m2, r < s.nv) :
    readMat (copy4 s m1 m2 v1 v2).2 ((copy4 s m1 m2 v1 v2).1.2.1) =
      readMat s m2 := by
  have hmain : readMat (copy4 s m1 m2 v1 v2).2 ((copy4 s m1 m2 v1 v2).1.2.1) =
      readMat (copyMat (copyMat s m1).2 m2).2
        ((copyMat (copyMat s m1).2 m2).1) := by
    refine readMat_congr ?_ ?_
    · show (copyVec (copyVec (copyMat (copyMat s m1).2 m2).2 v1).2 v2).2.arr
          ((copyMat (copyMat s m1).2 m2).1) =
        (copyMat (copyMat s m1).2 m2).2.arr ((copyMat (copyMat s m1).2 m2).1)
      rw [copyVec_arr, copyVec_arr]
    · intro r hr
      have hb := copyMat_rows (copyMat s m1).2 m2 r hr
      show (copyVec (copyVec (copyMat (copyMat s m1).2 m2).2 v1).2 v2).2.vec r =
        (copyMat (copyMat s m1).2 m2).2.vec r
      have hr3 : r < (copyVec (copyMat (copyMat s m1).2 m2).2 v1).2.nv := by
        rw [copyVec_nv]; omega
      rw [copyVec_vec_lt _ _ hr3, copyVec_vec_lt _ _ hb.2]
  rw [hmain, copyMat_read]
  exact copyMat_readMat_other s m1 m2 hm2 hrows2

/-- Reading the first copied vector gives the original values, provided the
source vector was valid in the base store. -/
theorem copy4_read3 (hv1 : v1 < s.nv) :
    readVec (copy4 s m1 m2 v1 v2).2 ((copy4 s m1 m2 v1 v2).1.2.2.1) =
      readVec s v1 := by
  show (copyVec (copyVec (copyMat (copyMat s m1).2 m2).2 v1).2 v2).2.vec
      ((copyVec (copyMat (copyMat s m1).2 m2).2 v1).1) = readVec s v1
  have ha3 : (copyVec (copyMat (copyMat s m1).2 m2).2 v1).1 <
      (copyVec (copyMat (copyMat s m1).2 m2).2 v1).2.nv := by
    rw [copyVec_fst, copyVec_nv]; omega
  rw [copyVec_vec_lt _ _ ha3, copyVec_read]
  show (copyMat (copyMat s m1).2 m2).2.vec v1 = s.vec v1
  have hb1 : v1 < (copyMat s m1).2.nv := lt_of_lt_of_le hv1 (copyMat_nv_le _ _)
  rw [copyMat_vec_lt _ _ hb1, copyMat_vec_lt _ _ hv1]

/-- Reading the second copied vector gives the original values, provided the
source vector was valid in the base store. -/
theorem copy4_read4 (hv2 : v2 < s.nv) :
    readVec (copy4 s m1 m2 v1 v2).2 ((copy4 s m1 m2 v1 v2).1.2.2.2) =
      readVec s v2 := by
  show (copyVec (copyVec (copyMat (copyMat s m1).2 m2).2 v1).2 v2).2.vec
      ((copyVec (copyVec (copyMat (copyMat s m1).2 m2).2 v1).2 v2).1) =
    readVec s v2
  rw [copyVec_read]
  show (copyVec (copyMat (copyMat s m1).2 m2).2 v1).2.vec v2 = s.vec v2
  have hb1 : v2 < (copyMat s m1).2.nv := lt_of_lt_of_le hv2 (copyMat_nv_le _ _)
  have hb2 : v2 < (copyMat (copyMat s m1).2 m2).2.nv :=
    lt_of_lt_of_le hb1 (copyMat_nv_le _ _)
  rw [copyVec_vec_lt _ _ hb2, copyMat_vec_lt _ _ hb1, copyMat_vec_lt _ _ hv2]

end Copy4


/-- Claim C8: setWeights(getWeights()) leaves every subsequent predict
output identical; the object returned by getWeights lives entirely in
freshly allocated cells disjoint from the engine, and any mutation
confined to those fresh cells leaves the engine's parameters unchanged;
likewise, after setWeights the engine lives entirely in freshly allocated
cells, so any mutation confined to previously existing cells (in
particular to the object that was passed in) leaves the engine's
parameters unchanged. -/
theorem getWeights_setWeights_contract (e : HeapNet) (s : Store)
    (hval : validAddrs s e) (lr : ℝ) (tt : TaskType) :
    (∀ inputs : List ℝ,
      predict (netOf (setWeights e (getWeights e s).2 (getWeights e s).1).2
          ((setWeights e (getWeights e s).2 (getWeights e s).1).1) lr tt)
        inputs =
      predict (netOf s e lr tt) inputs) ∧
    (s.na ≤ (getWeights e s).1.weights1 ∧
      s.na ≤ (getWeights e s).1.weights2 ∧
      s.nv ≤ (getWeights e s).1.biases1 ∧
      s.nv ≤ (getWeights e s).1.biases2 ∧
      (∀ r ∈ (getWeights e s).2.arr ((getWeights e s).1.weights1), s.nv ≤ r) ∧
      (∀ r ∈ (getWeights e s).2.arr ((getWeights e s).1.weights2), s.nv ≤ r)) ∧
    (∀ s2 : Store,
      (∀ a, a < s.nv → s2.vec a = (getWeights e s).2.vec a) →
      (∀ a, a < s.na → s2.arr a = (getWeights e s).2.arr a) →
      netOf s2 e lr tt = netOf s e lr tt) ∧
    (∀ (w : WeightsObj) (s2 : Store),
      (∀ a, s.nv ≤ a → s2.vec a = (setWeights e s w).2.vec a) →
      (∀ a, s.na ≤ a → s2.arr a = (setWeights e s w).2.arr a) →
      netOf s2 ((setWeights e s w).1) lr tt =
        netOf (setWeights e s w).2 ((setWeights e s w).1) lr tt) := by
  obtain ⟨hw1, hw2, hb1, hb2, hr1, hr2⟩ := hval
  refine ⟨?_, ⟨?_, ?_, ?_, ?_, ?_, ?_⟩, ?_, ?_⟩
  · -- round trip
    intro inputs
    refine congrArg (fun n => predict n inputs) ?_
    have h1 : readMat (setWeights e (getWeights e s).2 (getWeights e s).1).2
        ((setWeights e (getWeights e s).2 (getWeights e s).1).1).w1 =
        readMat s e.w1 :=
      (copy4_read1 (copy4 s e.w1 e.w2 e.b1 e.b2).2
        (copy4 s e.w1 e.w2 e.b1 e.b2).1.1
        (copy4 s e.w1 e.w2 e.b1 e.b2).1.2.1
        (copy4 s e.w1 e.w2 e.b1 e.b2).1.2.2.1
        (copy4 s e.w1 e.w2 e.b1 e.b2).1.2.2.2).trans
        (copy4_read1 s e.w1 e.w2 e.b1 e.b2)
    have h2 : readMat (setWeights e (getWeights e s).2 (getWeights e s).1).2
        ((setWeights e (getWeights e s).2 (getWeights e s).1).1).w2 =
        readMat s e.w2 :=
      (copy4_read2 (copy4 s e.w1 e.w2 e.b1 e.b2).2
        (copy4 s e.w1 e.w2 e.b1 e.b2).1.1
        (copy4 s e.w1 e.w2 e.b1 e.b2).1.2.1
        (copy4 s e.w1 e.w2 e.b1 e.b2).1.2.2.1
        (copy4 s e.w1 e.w2 e.b1 e.b2).1.2.2.2
        (by rw [copy4_addr2, copy4_na]; omega)
        (fun r hr => (copy4_rows2 s e.w1 e.w2 e.b1 e.b2 r hr).2)).trans
        (copy4_read2 s e.w1 e.w2 e.b1 e.b2 hw2 hr2)
    have h3 : readVec (setWeights e (getWeights e s).2 (getWeights e s).1).2
        ((setWeights e (getWeights e s).2 (getWeights e s).1).1).b1 =
        readVec s e.b1 :=
      (copy4_read3 (copy4 s e.w1 e.w2 e.b1 e.b2).2
        (copy4 s e.w1 e.w2 e.b1 e.b2).1.1
        (copy4 s e.w1 e.w2 e.b1 e.b2).1.2.1
        (copy4 s e.w1 e.w2 e.b1 e.b2).1.2.2.1
        (copy4 s e.w1 e.w2 e.b1 e.b2).1.2.2.2
        (copy4_addr3_lt s e.w1 e.w2 e.b1 e.b2)).trans
        (copy4_read3 s e.w1 e.w2 e.b1 e.b2 hb1)
    have h4 : readVec (setWeights e (getWeights e s).2 (getWeights e s).1).2
        ((setWeights e (getWeights e s).2 (getWeights e s).1).1).b2 =
        readVec s e.b2 :=
      (copy4_read4 (copy4 s e.w1 e.w2 e.b1 e.b2).2
        (copy4 s e.w1 e.w2 e.b1 e.b2).1.1
        (copy4 s e.w1 e.w2 e.b1 e.b2).1.2.1
        (copy4 s e.w1 e.w2 e.b1 e.b2).1.2.2.1
        (copy4 s e.w1 e.w2 e.b1 e.b2).1.2.2.2
        (copy4_addr4_lt s e.w1 e.w2 e.b1 e.b2)).trans
        (copy4_read4 s e.w1 e.w2 e.b1 e.b2 hb2)
    rw [netOf, netOf, h1, h2, h3, h4]
  · exact (copy4_addr1 s e.w1 e.w2 e.b1 e.b2).ge
  · show s.na ≤ (copy4 s e.w1 e.w2 e.b1 e.b2).1.2.1
    have h := copy4_addr2 s e.w1 e.w2 e.b1 e.b2
    omega
  · exact copy4_addr3_ge s e.w1 e.w2 e.b1 e.b2
  · exact copy4_addr4_ge s e.w1 e.w2 e.b1 e.b2
  · exact fun r hr => (copy4_rows1 s e.w1 e.w2 e.b1 e.b2 r hr).1
  · exact fun r hr => (copy4_rows2 s e.w1 e.w2 e.b1 e.b2 r hr).1
  · -- mutation of fresh cells after getWeights does not affect the engine
    intro s2 hv ha
    have h1 : readMat s2 e.w1 = readMat s e.w1 := by
      refine readMat_congr ?_ ?_
      · rw [ha e.w1 hw1]
        exact copy4_arr_lt s e.w1 e.w2 e.b1 e.b2 hw1
      · intro r hr
        rw [hv r (hr1 r hr)]
        exact copy4_vec_lt s e.w1 e.w2 e.b1 e.b2 (hr1 r hr)
    have h2 : readMat s2 e.w2 = readMat s e.w2 := by
      refine readMat_congr ?_ ?_
      · rw [ha e.w2 hw2]
        exact copy4_arr_lt s e.w1 e.w2 e.b1 e.b2 hw2
      · intro r hr
        rw [hv r (hr2 r hr)]
        exact copy4_vec_lt s e.w1 e.w2 e.b1 e.b2 (hr2 r hr)
    have h3 : readVec s2 e.b1 = readVec s e.b1 := by
      rw [readVec, readVec, hv e.b1 hb1]
      exact copy4_vec_lt s e.w1 e.w2 e.b1 e.b2 hb1
    have h4 : readVec s2 e.b2 = readVec s e.b2 := by
      rw [readVec, readVec, hv e.b2 hb2]
      exact copy4_vec_lt s e.w1 e.w2 e.b1 e.b2 hb2
    rw [netOf, netOf, h1, h2, h3, h4]
  · -- mutation of pre-existing cells after setWeights does not affect the
    -- freshly installed engine
    intro w s2 hv ha
    have h1 : readMat s2 ((setWeights e s w).1).w1 =
        readMat (setWeights e s w).2 ((setWeights e s w).1).w1 :=
      readMat_congr
        (ha _ (copy4_addr1 s w.weights1 w.weights2 w.biases1 w.biases2).ge)
        (fun r hr =>
          hv r (copy4_rows1 s w.weights1 w.weights2 w.biases1 w.biases2 r hr).1)
    have h2 : readMat s2 ((setWeights e s w).1).w2 =
        readMat (setWeights e s w).2 ((setWeights e s w).1).w2 :=
      readMat_congr
        (ha _ (by
          show s.na ≤ (copy4 s w.weights1 w.weights2 w.biases1 w.biases2).1.2.1
          have h := copy4_addr2 s w.weights1 w.weights2 w.biases1 w.biases2
          omega))
        (fun r hr =>
          hv r (copy4_rows2 s w.weights1 w.weights2 w.biases1 w.biases2 r hr).1)
    have h3 : readVec s2 ((setWeights e s w).1).b1 =
        readVec (setWeights e s w).2 ((setWeights e s w).1).b1 := by
      rw [readVec, readVec]
      exact hv _ (copy4_addr3_ge s w.weights1 w.weights2 w.biases1 w.biases2)
    have h4 : readVec s2 ((setWeights e s w).1).b2 =
        readVec (setWeights e s w).2 ((setWeights e s w).1).b2 := by
      rw [readVec, readVec]
      exact hv _ (copy4_addr4_ge s w.weights1 w.weights2 w.biases1 w.biases2)
    rw [netOf, netOf, h1, h2, h3, h4]

/-- Witness for C8 at a concrete store and engine. -/
theorem getWeights_setWeights_contract_witness :
    predict (netOf (setWeights exHeapNet (getWeights exHeapNet exStore).2
        (getWeights exHeapNet exStore).1).2
      ((setWeights exHeapNet (getWeights exHeapNet exStore).2
        (getWeights exHeapNet exStore).1).1) 1 TaskType.classification)
      [1, 2] =
      predict (netOf exStore exHeapNet 1 TaskType.classification) [1, 2] ∧
    exStore.na ≤ (getWeights exHeapNet exStore).1.weights1 :=
  have h := getWeights_setWeights_contract exHeapNet exStore
    ⟨by decide, by decide, by decide, by decide, by decide, by decide⟩ 1
    TaskType.classification
  ⟨h.1 [1, 2], h.2.1.1⟩


/-- Witness for C7 at a concrete output value. -/
theorem clampUnit_log_bounds_witness :
    (epsilon ≤ clampUnit 2 ∧ clampUnit 2 ≤ 1 - epsilon) ∧
    (epsilon ≤ 1 - clampUnit 2 ∧ 1 - clampUnit 2 ≤ 1 - epsilon) :=
  clampUnit_log_bounds 2

end
